import Mathlib

/-!
Verification of the transcript-processor service of the
youtube-clip-mentions-collector repository against its specification.

The development shallowly embeds the Python modules
`src/ml-services/transcript-processor/src/queue_manager.py`,
`src/ml-services/transcript-processor/src/transcript_extractor.py`,
`src/ml-services/transcript-processor/src/vpn_rotator.py` and
`src/ml-services/transcript-processor/src/utils.py`.

Conventions of the embedding:
  * Redis state is modelled explicitly: a sorted set is an association
    list `List (String × Int)` with distinct keys, ordered-set semantics
    coming from the pop operation itself (ZPOPMAX selects the entry that
    is maximal by score, ties broken by the lexicographically larger
    member, exactly as Redis sorted sets do); a plain set is a duplicate
    free `List String`; the per-job records live in an association list
    together with the TTL that SETEX installed.
  * Wall-clock instants (`datetime.utcnow()`) are passed in explicitly as
    a natural number `now` counted in seconds.
  * `uuid.uuid4()` is passed in explicitly as the `freshId` argument.
  * Fallible Python code that raises is modelled with `Except String`.
-/

namespace TranscriptProcessor

/-- Job status enum from `models.py` (`JobStatus`). -/
inductive JobStatus where
  | queued
  | processing
  | completed
  | failed
deriving DecidableEq, Repr

/-- Background job model from `models.py` (`TranscriptJob`).  The `result`
payload field is irrelevant to queue behaviour and is not modelled; all
other fields used by `queue_manager.py` are present.  Timestamps are
seconds as naturals. -/
structure TranscriptJob where
  job_id : Option String
  video_id : String
  status : JobStatus
  created_at : Option Nat
  started_at : Option Nat
  completed_at : Option Nat
  error : Option String
  retry_count : Nat
  max_retries : Nat
  priority : Int
deriving DecidableEq, Repr

/-- The two settings of `config.py` that `queue_manager.py` reads. -/
structure Settings where
  max_queue_size : Nat
  job_timeout : Nat
deriving DecidableEq, Repr

/-- Default settings values from `config.py`. -/
def defaultSettings : Settings := { max_queue_size := 1000, job_timeout := 600 }

/-- Association list update used to model Redis string keys (SETEX /
SET): replace the value at the key if present, otherwise append.  Keys
are unique in every state the manager builds. -/
def kvSet {α : Type} (l : List (String × α)) (k : String) (v : α) : List (String × α) :=
  match l with
  | [] => [(k, v)]
  | e :: es => if e.1 = k then (k, v) :: es else e :: kvSet es k v

/-- Association list lookup used to model Redis GET. -/
def kvGet {α : Type} (l : List (String × α)) (k : String) : Option α :=
  match l with
  | [] => none
  | e :: es => if e.1 = k then some e.2 else kvGet es k

/-- Model of Redis ZADD on a sorted set: update the score of an existing
member or insert the member. -/
def zadd (l : List (String × Int)) (member : String) (score : Int) : List (String × Int) :=
  match l with
  | [] => [(member, score)]
  | e :: es => if e.1 = member then (member, score) :: es else e :: zadd es member score

/-- Lexicographic comparison of character lists, the order Redis applies
to members (memcmp of the UTF-8 bytes; identical to codepoint order for
the ASCII ids in play). -/
def charListLt : List Char → List Char → Bool
  | [], [] => false
  | [], _ :: _ => true
  | _ :: _, [] => false
  | a :: as, b :: bs =>
    if a.toNat < b.toNat then true
    else if b.toNat < a.toNat then false
    else charListLt as bs

/-- Lexicographic comparison of member strings. -/
def strLt (a b : String) : Bool := charListLt a.data b.data

/-- True when the first sorted-set entry ranks strictly below the second:
Redis sorted sets order by score and break score ties by the
lexicographic order of the member string. -/
def entryLt (a b : String × Int) : Bool :=
  decide (a.2 < b.2) || (decide (a.2 = b.2) && strLt a.1 b.1)

/-- Remove the first occurrence of an element from a list. -/
def removeFirst {α : Type} [DecidableEq α] : List α → α → List α
  | [], _ => []
  | y :: ys, b => if y = b then ys else y :: removeFirst ys b

/-- Model of Redis ZPOPMAX: remove and return the entry with the highest
score, ties resolved towards the lexicographically larger member. -/
def zpopmax (l : List (String × Int)) : Option ((String × Int) × List (String × Int)) :=
  match l with
  | [] => none
  | x :: xs =>
    let best := xs.foldl (fun b e => if entryLt b e then e else b) x
    some (best, removeFirst l best)

/-- Model of Redis SADD on a plain set. -/
def sadd (l : List String) (x : String) : List String :=
  if x ∈ l then l else l ++ [x]

/-- Model of Redis SREM on a plain set. -/
def srem (l : List String) (x : String) : List String :=
  removeFirst l x

/-- The Redis state touched by `QueueManager`, plus the `connected`
flag of the manager object.  `jobs` maps a job key to the stored record
together with the TTL installed by the latest SETEX; `completedSetTTL`
and `failedSetTTL` record the argument of the latest EXPIRE on the
aggregate completed/failed sets. -/
structure RedisState where
  connected : Bool
  waiting : List (String × Int)
  processing : List String
  completed : List String
  failed : List String
  jobs : List (String × (TranscriptJob × Nat))
  completedSetTTL : Option Nat
  failedSetTTL : Option Nat
deriving DecidableEq, Repr

/-- The empty connected state (fresh Redis, `connect` succeeded). -/
def initialState : RedisState :=
  { connected := true, waiting := [], processing := [], completed := [], failed := []
    jobs := [], completedSetTTL := none, failedSetTTL := none }

/-- Embedding of `QueueManager.update_job` minus its `connected` guard
(the body of the `try` block).  Faithful ordering from the source: the
record written by SETEX is serialized BEFORE `completed_at` is stamped,
so the stamp is only visible on the in-memory object that the function
mutates, which we return alongside the state.  Returns also the TTL it
passed to SETEX so that theorems can speak about it. -/
def updateJobRun (s : Settings) (st : RedisState) (now : Nat) (job : TranscriptJob) :
    RedisState × TranscriptJob × Nat :=
  let jobData := job
  let terminal := job.status = JobStatus.completed ∨ job.status = JobStatus.failed
  let ttl := if terminal then 3600 else s.job_timeout
  let job1 := if terminal then { job with completed_at := some now } else job
  let key := job.job_id.getD "None"
  let st1 := { st with jobs := kvSet st.jobs key (jobData, ttl) }
  let st2 :=
    if job.status = JobStatus.completed then
      { st1 with processing := srem st1.processing key
                 completed := sadd st1.completed key
                 completedSetTTL := some 3600 }
    else if job.status = JobStatus.failed then
      { st1 with processing := srem st1.processing key
                 failed := sadd st1.failed key
                 failedSetTTL := some 7200 }
    else st1
  (st2, job1, ttl)

/-- Embedding of `QueueManager.update_job`: raises when not connected,
otherwise runs the body. -/
def update_job (s : Settings) (st : RedisState) (now : Nat) (job : TranscriptJob) :
    Except String (RedisState × TranscriptJob × Nat) :=
  if st.connected then Except.ok (updateJobRun s st now job)
  else Except.error "Redis not connected"

/-- Embedding of `QueueManager.add_job`.  `freshId` stands for the
`uuid.uuid4()` drawn when the job carries no id.  The queue-size check
uses ZCARD of the waiting sorted set plus SCARD of the processing set
(`get_queue_size`); when it fails the exception propagates before any
write, so the error case returns no state. -/
def add_job (s : Settings) (st : RedisState) (now : Nat) (freshId : String)
    (job : TranscriptJob) : Except String (RedisState × String) :=
  if st.connected then
    let jid := job.job_id.getD freshId
    let job1 := { job with job_id := some jid, created_at := some now
                           status := JobStatus.queued }
    let queueSize := st.waiting.length + st.processing.length
    if queueSize ≥ s.max_queue_size then
      Except.error "Queue full"
    else
      let score : Int := -job1.priority
      let st1 := { st with waiting := zadd st.waiting jid score }
      let st2 := { st1 with jobs := kvSet st1.jobs jid (job1, s.job_timeout) }
      Except.ok (st2, jid)
  else
    Except.error "Redis not connected"

/-- Embedding of `QueueManager.get_next_job`.  Pops the ZPOPMAX entry of
the waiting sorted set; when the per-job record is gone the function
logs and returns `None` with the member already removed from the waiting
set and never added to the processing set. -/
def get_next_job (s : Settings) (st : RedisState) (now : Nat) :
    Option TranscriptJob × RedisState :=
  if st.connected then
    match zpopmax st.waiting with
    | none => (none, st)
    | some ((jid, _), rest) =>
      let st1 := { st with waiting := rest }
      match kvGet st1.jobs jid with
      | none => (none, st1)
      | some (job, _) =>
        let job1 := { job with status := JobStatus.processing, started_at := some now }
        let st2 := { st1 with processing := sadd st1.processing jid }
        let (st3, job2, _) := updateJobRun s st2 now job1
        (some job2, st3)
  else
    (none, st)

/-- Error message stored by `requeue_stuck_jobs` when retries are
exhausted.  The Python code interpolates the elapsed seconds as a float;
the fractional formatting is abstracted, the integer seconds appear. -/
def stuckError (elapsed : Int) : String :=
  "Max retries exceeded (stuck for " ++ toString elapsed ++ "s)"

/-- One iteration of the loop of `QueueManager.requeue_stuck_jobs` over
a member of the processing-set snapshot.  The accumulator carries the
evolving Redis state and the requeued counter. -/
def stepStuck (s : Settings) (now : Nat) (maxPT : Nat)
    (acc : RedisState × Nat) (jid : String) : RedisState × Nat :=
  let st := acc.1
  match kvGet st.jobs jid with
  | none => acc
  | some (job, _) =>
    match job.started_at with
    | none => acc
    | some t =>
      let elapsed : Int := (now : Int) - (t : Int)
      if (maxPT : Int) < elapsed then
        let job1 := { job with status := JobStatus.queued, started_at := none
                               retry_count := job.retry_count + 1 }
        if job1.retry_count < job1.max_retries then
          let st1 := { st with processing := srem st.processing jid
                               waiting := zadd st.waiting jid (-job1.priority) }
          let st2 := (updateJobRun s st1 now job1).1
          (st2, acc.2 + 1)
        else
          let job2 := { job1 with status := JobStatus.failed
                                  error := some (stuckError elapsed) }
          let st1 := (updateJobRun s st now job2).1
          (st1, acc.2)
      else acc

/-- Embedding of `QueueManager.requeue_stuck_jobs`: sweeps a snapshot of
the processing set (SMEMBERS) and steps each member. -/
def requeue_stuck_jobs (s : Settings) (st : RedisState) (now : Nat) (maxPT : Nat) :
    RedisState × Nat :=
  if st.connected then
    st.processing.foldl (stepStuck s now maxPT) (st, 0)
  else
    (st, 0)

/-- A fresh job with the given priority, as built by the service before
`add_job` (no id yet, defaults from the `TranscriptJob` model). -/
def mkJob (p : Int) : TranscriptJob :=
  { job_id := none, video_id := "vid", status := JobStatus.queued
    created_at := none, started_at := none, completed_at := none
    error := none, retry_count := 0, max_retries := 3, priority := p }

/-- Run `add_job` and keep the new state, ignoring the returned id;
the error case keeps the old state (the exception writes nothing). -/
def addForced (s : Settings) (st : RedisState) (now : Nat) (freshId : String)
    (job : TranscriptJob) : RedisState :=
  match add_job s st now freshId job with
  | Except.ok r => r.1
  | Except.error _ => st

/-- Queue state after enqueuing four jobs with priorities 5, 1, 5, 3 and
ids a, b, c, d in that insertion order. -/
def c1State : RedisState :=
  addForced defaultSettings
    (addForced defaultSettings
      (addForced defaultSettings
        (addForced defaultSettings initialState 0 "a" (mkJob 5))
        1 "b" (mkJob 1))
      2 "c" (mkJob 5))
    3 "d" (mkJob 3)

/-- Drain the queue with repeated `get_next_job` calls, recording the id
and the priority of every job handed out, in order. -/
def drainN (s : Settings) : Nat → RedisState → Nat → (List (String × Int) × RedisState)
  | 0, st, _ => ([], st)
  | n + 1, st, now =>
    match get_next_job s st now with
    | (some j, st1) =>
      let r := drainN s n st1 (now + 1)
      ((j.job_id.getD "?", j.priority) :: r.1, r.2)
    | (none, st1) => ([], st1)

/-- C1: the claim states that jobs enqueued with priorities
[5, 1, 5, 3] are dequeued in priority-descending order 5, 5, 3, 1 with
FIFO tie-breaks.  The code stores score `-priority` (ZADD) and then pops
with ZPOPMAX, so the two inversions cancel into ascending order: the
drain yields priorities 1, 3, 5, 5, and the tie between the two
priority-5 jobs (inserted a before c) resolves to the lexicographically
larger member c first, not FIFO.  This contradicts the source comment
"higher priority first" on the ZADD call, so the claim is right and the
code is wrong. -/
theorem C1_priority_order_bug :
    (drainN defaultSettings 4 c1State 10).1.map Prod.snd = [1, 3, 5, 5] ∧
    (drainN defaultSettings 4 c1State 10).1.map Prod.fst = ["b", "d", "c", "a"] ∧
    ¬ (drainN defaultSettings 4 c1State 10).1.map Prod.snd = [5, 5, 3, 1] := by
  refine ⟨by decide, by decide, by decide⟩

/-- A job that a worker finished: status COMPLETED, not yet carrying a
`completed_at` stamp (the callers in `main.py` never set one). -/
def c6Job : TranscriptJob :=
  { job_id := some "j", video_id := "vid", status := JobStatus.completed
    created_at := some 0, started_at := some 5, completed_at := none
    error := none, retry_count := 0, max_retries := 3, priority := 0 }

/-- State with job j in the processing set and its record stored. -/
def c6State : RedisState :=
  { connected := true, waiting := [], processing := ["j"], completed := []
    failed := []
    jobs := [("j", ({ c6Job with status := JobStatus.processing }, 600))]
    completedSetTTL := none, failedSetTTL := none }

/-- C6: the claim says that after `update_job` with a terminal status the
job leaves the processing set, joins the completed set, and the persisted
record carries a stamped `completed_at`.  The set moves do happen, but
the source serializes the record (`model_dump_json`) BEFORE assigning
`job.completed_at = datetime.utcnow()`, so the persisted record still has
`completed_at = None`; only the in-memory object is stamped.  The same
file later reads `completed_at` back from persisted records in
`_calculate_average_processing_time`, so the late stamp is a slip in the
code, not in the spec. -/
theorem C6_completed_at_not_persisted :
    update_job defaultSettings c6State 100 c6Job =
      Except.ok (updateJobRun defaultSettings c6State 100 c6Job) ∧
    ("j" ∈ (updateJobRun defaultSettings c6State 100 c6Job).1.completed) ∧
    ¬ ("j" ∈ (updateJobRun defaultSettings c6State 100 c6Job).1.processing) ∧
    (kvGet (updateJobRun defaultSettings c6State 100 c6Job).1.jobs "j").map
      (fun e => e.1.completed_at) = some none ∧
    (updateJobRun defaultSettings c6State 100 c6Job).2.1.completed_at = some 100 := by
  refine ⟨rfl, by decide, by decide, by decide, by decide⟩

/-- A terminal FAILED job used to compare the two terminal TTLs. -/
def c7JobFailed : TranscriptJob := { c6Job with status := JobStatus.failed }

/-- C7 counterexample: the claim says the per-job record TTL of a
COMPLETED job is strictly shorter than that of a FAILED job.  The source
assigns `ttl = 3600` for both terminal statuses, so the two TTLs are
equal and the strict inequality fails. -/
theorem C7_ttl_counterexample :
    (updateJobRun defaultSettings c6State 100 c6Job).2.2 = 3600 ∧
    (updateJobRun defaultSettings c6State 100 c7JobFailed).2.2 = 3600 ∧
    ¬ ((updateJobRun defaultSettings c6State 100 c6Job).2.2 <
        (updateJobRun defaultSettings c6State 100 c7JobFailed).2.2) := by
  refine ⟨by decide, by decide, by decide⟩

/-- C7 amended: for every job reaching a terminal status via
`update_job`, the per-job state key receives the SAME 3600-second TTL for
both terminal statuses; what differs by terminal status is the EXPIRE on
the aggregate membership sets: 3600 on the completed set and 7200 on the
failed set (completed shorter than failed). -/
theorem C7_ttl_amended (s : Settings) (st : RedisState) (now : Nat) (job : TranscriptJob) :
    (job.status = JobStatus.completed →
      (updateJobRun s st now job).2.2 = 3600 ∧
      (updateJobRun s st now job).1.completedSetTTL = some 3600) ∧
    (job.status = JobStatus.failed →
      (updateJobRun s st now job).2.2 = 3600 ∧
      (updateJobRun s st now job).1.failedSetTTL = some 7200) := by
  constructor
  · intro h
    simp [updateJobRun, h]
  · intro h
    simp [updateJobRun, h]

/-- C7 amended, exercised at concrete terminal jobs. -/
theorem C7_ttl_amended_witness :
    ((updateJobRun defaultSettings c6State 100 c6Job).2.2 = 3600 ∧
      (updateJobRun defaultSettings c6State 100 c6Job).1.completedSetTTL = some 3600) ∧
    ((updateJobRun defaultSettings c6State 100 c7JobFailed).2.2 = 3600 ∧
      (updateJobRun defaultSettings c6State 100 c7JobFailed).1.failedSetTTL = some 7200) :=
  ⟨(C7_ttl_amended defaultSettings c6State 100 c6Job).1 rfl,
   (C7_ttl_amended defaultSettings c6State 100 c7JobFailed).2 rfl⟩

/-- C5: `add_job` on a connected state raises the queue-full error
exactly when ZCARD waiting + SCARD processing is at least the configured
capacity; the exception fires before any Redis write so the error case
changes nothing, and otherwise the job is inserted (waiting entry and
record) and its id returned. -/
theorem C5_queue_full (s : Settings) (st : RedisState) (now : Nat) (fid : String)
    (job : TranscriptJob) (hc : st.connected = true) :
    (st.waiting.length + st.processing.length ≥ s.max_queue_size ↔
      add_job s st now fid job = Except.error "Queue full") ∧
    (st.waiting.length + st.processing.length < s.max_queue_size →
      add_job s st now fid job = Except.ok
        ({ st with
            waiting := zadd st.waiting (job.job_id.getD fid) (-job.priority)
            jobs := kvSet st.jobs (job.job_id.getD fid)
              ({ job with job_id := some (job.job_id.getD fid), created_at := some now
                          status := JobStatus.queued }, s.job_timeout) },
         job.job_id.getD fid)) := by
  constructor
  · constructor
    · intro h
      simp [add_job, hc, h]
    · intro herr
      by_cases h : st.waiting.length + st.processing.length ≥ s.max_queue_size
      · exact h
      · exfalso
        simp [add_job, hc, h] at herr
  · intro h
    have h2 : ¬ (st.waiting.length + st.processing.length ≥ s.max_queue_size) := by omega
    simp [add_job, hc, h2]

/-- C5 exercised at a concrete connected empty state. -/
theorem C5_queue_full_witness :
    ¬ (initialState.waiting.length + initialState.processing.length ≥
        defaultSettings.max_queue_size) ∧
    (initialState.waiting.length + initialState.processing.length <
        defaultSettings.max_queue_size →
      add_job defaultSettings initialState 0 "a" (mkJob 5) = Except.ok
        ({ initialState with
            waiting := zadd initialState.waiting ((mkJob 5).job_id.getD "a")
              (-(mkJob 5).priority)
            jobs := kvSet initialState.jobs ((mkJob 5).job_id.getD "a")
              ({ (mkJob 5) with job_id := some ((mkJob 5).job_id.getD "a")
                                created_at := some 0
                                status := JobStatus.queued },
               defaultSettings.job_timeout) },
         (mkJob 5).job_id.getD "a")) :=
  ⟨by decide,
   (C5_queue_full defaultSettings initialState 0 "a" (mkJob 5) rfl).2⟩

/-- Folding the max-entry pick always returns the seed or a list
element. -/
lemma pickFold_mem (xs : List (String × Int)) (b : String × Int) :
    xs.foldl (fun b e => if entryLt b e then e else b) b ∈ b :: xs := by
  induction xs generalizing b with
  | nil => simp
  | cons e es ih =>
    simp only [List.foldl_cons]
    by_cases hbe : entryLt b e = true
    · rw [if_pos hbe]
      exact List.mem_cons_of_mem b (ih e)
    · rw [if_neg hbe]
      rcases List.mem_cons.mp (ih b) with h | h

      · rw [h]
        exact List.mem_cons_self b (e :: es)
      · exact List.mem_cons_of_mem b (List.mem_cons_of_mem e h)

/-- ZPOPMAX returns an element of the set and the set with that element
removed. -/
lemma zpopmax_spec (l : List (String × Int)) (e : String × Int)
    (rest : List (String × Int)) (h : zpopmax l = some (e, rest)) :
    e ∈ l ∧ rest = removeFirst l e := by
  cases l with
  | nil => simp [zpopmax] at h
  | cons x xs =>
    simp only [zpopmax, Option.some.injEq, Prod.mk.injEq] at h
    obtain ⟨he, hr⟩ := h
    subst he
    exact ⟨pickFold_mem xs x, hr.symm⟩

/-- Removing one occurrence of a key-value pair from an association list
with duplicate-free keys leaves no pair with that key behind. -/
lemma removeFirst_key_not_mem (l : List (String × Int)) (k : String) (v : Int)
    (hnd : (l.map Prod.fst).Nodup) (hmem : (k, v) ∈ l) (v2 : Int) :
    ¬ ((k, v2) ∈ removeFirst l (k, v)) := by
  induction l with
  | nil => simp at hmem
  | cons x xs ih =>
    simp only [List.map_cons, List.nodup_cons] at hnd
    obtain ⟨hx, hxs⟩ := hnd
    by_cases hxe : x = (k, v)
    · subst hxe
      simp only [removeFirst, if_pos rfl]
      intro hc
      exact hx (List.mem_map.mpr ⟨(k, v2), hc, rfl⟩)
    · simp only [removeFirst, if_neg hxe]
      rcases List.mem_cons.mp hmem with h | h
      · exact absurd h.symm hxe
      · intro hc
        rcases List.mem_cons.mp hc with h2 | h2
        · subst h2
          exact hx (List.mem_map.mpr ⟨(k, v), h, rfl⟩)
        · exact ih hxs h h2

/-- C10: when `get_next_job` pops a member whose per-job record is gone,
it returns `None`; the member has already been removed from the waiting
sorted set by ZPOPMAX, nothing re-adds it, and it is never added to the
processing set — the job vanishes from every status set. -/
theorem C10_missing_record (s : Settings) (st : RedisState) (now : Nat)
    (jid : String) (sc : Int) (rest : List (String × Int))
    (hc : st.connected = true)
    (hnodup : (st.waiting.map Prod.fst).Nodup)
    (hpop : zpopmax st.waiting = some ((jid, sc), rest))
    (hmissing : kvGet st.jobs jid = none) :
    get_next_job s st now = (none, { st with waiting := rest }) ∧
    (∀ sc2, ¬ ((jid, sc2) ∈ rest)) ∧
    ({ st with waiting := rest }).processing = st.processing ∧
    ({ st with waiting := rest }).jobs = st.jobs := by
  obtain ⟨hmem, hrest⟩ := zpopmax_spec st.waiting (jid, sc) rest hpop
  refine ⟨?_, ?_, rfl, rfl⟩
  · simp [get_next_job, hc, hpop, hmissing]
  · intro sc2
    rw [hrest]
    exact removeFirst_key_not_mem st.waiting jid sc hnodup hmem sc2

/-- C10 exercised at a concrete one-element waiting set with no record. -/
theorem C10_missing_record_witness :
    get_next_job defaultSettings
        { initialState with waiting := [("x", -1)] } 7 =
      (none, { initialState with waiting := ([] : List (String × Int)) }) ∧
    (∀ sc2, ¬ (("x", sc2) ∈ ([] : List (String × Int)))) ∧
    ({ initialState with waiting := ([] : List (String × Int)) }).processing =
      ({ initialState with waiting := [("x", -1)] } : RedisState).processing ∧
    ({ initialState with waiting := ([] : List (String × Int)) }).jobs =
      ({ initialState with waiting := [("x", -1)] } : RedisState).jobs := by
  have h := C10_missing_record defaultSettings
    { initialState with waiting := [("x", -1)] } 7 "x" (-1) []
    rfl (by decide) (by decide) rfl
  exact h

/-- Updating one key leaves lookups of other keys unchanged. -/
lemma kvGet_kvSet_ne {α : Type} (l : List (String × α)) (k k2 : String) (v : α)
    (h : ¬ (k = k2)) : kvGet (kvSet l k2 v) k = kvGet l k := by
  induction l with
  | nil =>
    simp only [kvSet, kvGet]
    rw [if_neg (fun hh => h hh.symm)]
  | cons e es ih =>
    by_cases he : e.1 = k2
    · simp only [kvSet, if_pos he, kvGet]
      rw [if_neg (fun hh => h hh.symm), if_neg (fun hh => h (he ▸ hh).symm)]
    · simp only [kvSet, if_neg he, kvGet]
      by_cases hek : e.1 = k
      · rw [if_pos hek, if_pos hek]
      · rw [if_neg hek, if_neg hek]
        exact ih

/-- Updating a key makes its lookup return the new value. -/
lemma kvGet_kvSet_same {α : Type} (l : List (String × α)) (k : String) (v : α) :
    kvGet (kvSet l k v) k = some v := by
  induction l with
  | nil => simp [kvSet, kvGet]
  | cons e es ih =>
    by_cases he : e.1 = k
    · simp [kvSet, if_pos he, kvGet]
    · simp only [kvSet, if_neg he, kvGet]
      exact ih

/-- Every element of an updated association list is the new pair or an
element of the old list. -/
lemma mem_kvSet {α : Type} (l : List (String × α)) (k : String) (v : α)
    (x : String × α) (hx : x ∈ kvSet l k v) :
    x = (k, v) ∨ x ∈ l := by
  induction l with
  | nil =>
    simp only [kvSet] at hx
    simp at hx
    exact Or.inl hx
  | cons e es ih =>
    by_cases he : e.1 = k
    · rw [kvSet, if_pos he] at hx
      rcases List.mem_cons.mp hx with h1 | h1
      · exact Or.inl h1
      · exact Or.inr (List.mem_cons_of_mem e h1)
    · rw [kvSet, if_neg he] at hx
      rcases List.mem_cons.mp hx with h1 | h1
      · exact Or.inr (h1 ▸ List.mem_cons_self e es)
      · rcases ih h1 with h2 | h2
        · exact Or.inl h2
        · exact Or.inr (List.mem_cons_of_mem e h2)

/-- Removing a different element preserves membership. -/
lemma mem_removeFirst_ne {α : Type} [DecidableEq α] (l : List α) (a x : α)
    (h : ¬ (a = x)) : a ∈ removeFirst l x ↔ a ∈ l := by
  induction l with
  | nil => simp [removeFirst]
  | cons y ys ih =>
    by_cases hy : y = x
    · rw [removeFirst, if_pos hy]
      subst hy
      constructor
      · exact fun hm => List.mem_cons_of_mem y hm
      · intro hm
        rcases List.mem_cons.mp hm with h1 | h1
        · exact absurd h1 h
        · exact h1
    · rw [removeFirst, if_neg hy]
      constructor
      · intro hm
        rcases List.mem_cons.mp hm with h1 | h1
        · exact h1 ▸ List.mem_cons_self y ys
        · exact List.mem_cons_of_mem y (ih.mp h1)
      · intro hm
        rcases List.mem_cons.mp hm with h1 | h1
        · exact h1 ▸ List.mem_cons_self y (removeFirst ys x)
        · exact List.mem_cons_of_mem y (ih.mpr h1)

/-- Removal from a duplicate-free list removes the element for good. -/
lemma not_mem_removeFirst_self {α : Type} [DecidableEq α] (l : List α) (x : α)
    (hnd : l.Nodup) : ¬ (x ∈ removeFirst l x) := by
  induction l with
  | nil => simp [removeFirst]
  | cons y ys ih =>
    rcases List.nodup_cons.mp hnd with ⟨hy, hys⟩
    by_cases hyx : y = x
    · rw [removeFirst, if_pos hyx]
      subst hyx
      exact hy
    · rw [removeFirst, if_neg hyx]
      intro hm
      rcases List.mem_cons.mp hm with h1 | h1
      · exact hyx h1.symm
      · exact ih hys h1

/-- Removal preserves freedom from duplicates. -/
lemma nodup_removeFirst {α : Type} [DecidableEq α] (l : List α) (x : α)
    (hnd : l.Nodup) : (removeFirst l x).Nodup := by
  induction l with
  | nil => simp [removeFirst]
  | cons y ys ih =>
    rcases List.nodup_cons.mp hnd with ⟨hy, hys⟩
    by_cases hyx : y = x
    · rw [removeFirst, if_pos hyx]
      exact hys
    · rw [removeFirst, if_neg hyx]
      refine List.nodup_cons.mpr ⟨?_, ih hys⟩
      intro hm
      rcases (mem_removeFirst_ne ys y x hyx).mp hm with h1
      exact hy h1

/-- SADD adds the element. -/
lemma mem_sadd_self (l : List String) (x : String) : x ∈ sadd l x := by
  unfold sadd
  by_cases h : x ∈ l
  · rwa [if_pos h]
  · rw [if_neg h]
    simp

/-- SADD keeps old members. -/
lemma mem_sadd_of_mem (l : List String) (x a : String) (h : a ∈ l) : a ∈ sadd l x := by
  unfold sadd
  by_cases hm : x ∈ l
  · rwa [if_pos hm]
  · rw [if_neg hm]
    exact List.mem_append.mpr (Or.inl h)

/-- SADD introduces no member other than the added one. -/
lemma mem_sadd_elim (l : List String) (x a : String) (h : a ∈ sadd l x) :
    a ∈ l ∨ a = x := by
  unfold sadd at h
  by_cases hm : x ∈ l
  · rw [if_pos hm] at h
    exact Or.inl h
  · rw [if_neg hm] at h
    rcases List.mem_append.mp h with h1 | h1
    · exact Or.inl h1
    · simp at h1
      exact Or.inr h1

/-- ZADD of one member preserves the exact entries of other members. -/
lemma mem_zadd_ne (l : List (String × Int)) (k k2 : String) (v sc : Int)
    (h : ¬ (k = k2)) : (k, sc) ∈ zadd l k2 v ↔ (k, sc) ∈ l := by
  induction l with
  | nil =>
    simp only [zadd]
    simp [h]
  | cons e es ih =>
    by_cases he : e.1 = k2
    · rw [zadd, if_pos he]
      constructor
      · intro hm
        rcases List.mem_cons.mp hm with h1 | h1
        · exact absurd (congrArg Prod.fst h1) h
        · refine List.mem_cons_of_mem e ?_
          exact h1
      · intro hm
        rcases List.mem_cons.mp hm with h1 | h1
        · exact absurd (h1 ▸ he : (k, sc).1 = k2) h
        · exact List.mem_cons_of_mem (k2, v) h1
    · rw [zadd, if_neg he]
      constructor
      · intro hm
        rcases List.mem_cons.mp hm with h1 | h1
        · exact h1 ▸ List.mem_cons_self e es
        · exact List.mem_cons_of_mem e (ih.mp h1)
      · intro hm
        rcases List.mem_cons.mp hm with h1 | h1
        · exact h1 ▸ List.mem_cons_self e (zadd es k2 v)
        · exact List.mem_cons_of_mem e (ih.mpr h1)

/-- ZADD puts the member in with the given score. -/
lemma mem_zadd_self (l : List (String × Int)) (k : String) (v : Int) :
    (k, v) ∈ zadd l k v := by
  induction l with
  | nil => simp [zadd]
  | cons e es ih =>
    by_cases he : e.1 = k
    · rw [zadd, if_pos he]
      exact List.mem_cons_self (k, v) es
    · rw [zadd, if_neg he]
      exact List.mem_cons_of_mem e ih

/-- A lookup hit is a member of the association list. -/
lemma kvGet_mem {α : Type} (l : List (String × α)) (k : String) (v : α)
    (h : kvGet l k = some v) : (k, v) ∈ l := by
  induction l with
  | nil => simp [kvGet] at h
  | cons e es ih =>
    by_cases he : e.1 = k
    · rw [kvGet, if_pos he] at h
      have hv : e.2 = v := by
        injection h
      have : e = (k, v) := Prod.ext he hv
      exact this ▸ List.mem_cons_self e es
    · rw [kvGet, if_neg he] at h
      exact List.mem_cons_of_mem e (ih h)

/-- Every stored record names its own key as its job id.  True of every
state the manager builds, since records are stored under their id. -/
def jobsWellFormed (st : RedisState) : Prop :=
  ∀ p ∈ st.jobs, p.2.1.job_id = some p.1

instance (st : RedisState) : Decidable (jobsWellFormed st) := by
  unfold jobsWellFormed
  infer_instance

/-- A sweep step on one processing-set member does not disturb the
record, the processing membership, the waiting entries or the
failed-set membership of a DIFFERENT job id. -/
lemma stepStuck_frame (s : Settings) (now maxPT : Nat) (st : RedisState) (cnt : Nat)
    (idp jid : String) (hwf : jobsWellFormed st) (hne : ¬ (jid = idp)) :
    kvGet (stepStuck s now maxPT (st, cnt) idp).1.jobs jid = kvGet st.jobs jid ∧
    (jid ∈ (stepStuck s now maxPT (st, cnt) idp).1.processing ↔ jid ∈ st.processing) ∧
    (∀ sc, ((jid, sc) ∈ (stepStuck s now maxPT (st, cnt) idp).1.waiting ↔
      (jid, sc) ∈ st.waiting)) ∧
    (jid ∈ st.failed → jid ∈ (stepStuck s now maxPT (st, cnt) idp).1.failed) := by
  rcases hget : kvGet st.jobs idp with _ | ⟨job, ttlr⟩
  · simp [stepStuck, hget]
  · have hid : job.job_id = some idp := hwf (idp, (job, ttlr)) (kvGet_mem st.jobs idp (job, ttlr) hget)
    rcases hstart : job.started_at with _ | t
    · simp [stepStuck, hget, hstart]
    · by_cases helap : (maxPT : Int) < (now : Int) - (t : Int)
      · by_cases hretry : job.retry_count + 1 < job.max_retries
        · have hstep : (stepStuck s now maxPT (st, cnt) idp).1 =
              { st with
                  processing := srem st.processing idp
                  waiting := zadd st.waiting idp (-job.priority)
                  jobs := kvSet st.jobs idp
                    ({ job with status := JobStatus.queued, started_at := none
                                retry_count := job.retry_count + 1 }, s.job_timeout) } := by
            simp only [stepStuck, hget, hstart]
            rw [if_pos helap, if_pos hretry]
            simp only [updateJobRun, hid]
            simp
          rw [hstep]
          refine ⟨kvGet_kvSet_ne st.jobs jid idp _ hne,
                  mem_removeFirst_ne st.processing jid idp hne,
                  fun sc => mem_zadd_ne st.waiting jid idp _ sc hne,
                  fun hm => hm⟩
        · have hstep : (stepStuck s now maxPT (st, cnt) idp).1 =
              { st with
                  processing := srem st.processing idp
                  failed := sadd st.failed idp
                  failedSetTTL := some 7200
                  jobs := kvSet st.jobs idp
                    ({ job with status := JobStatus.failed, started_at := none
                                retry_count := job.retry_count + 1
                                error := some (stuckError ((now : Int) - (t : Int))) },
                     3600) } := by
            simp only [stepStuck, hget, hstart]
            rw [if_pos helap, if_neg hretry]
            simp only [updateJobRun, hid]
            simp
          rw [hstep]
          refine ⟨kvGet_kvSet_ne st.jobs jid idp _ hne,
                  mem_removeFirst_ne st.processing jid idp hne,
                  fun sc => Iff.rfl,
                  fun hm => mem_sadd_of_mem st.failed idp jid hm⟩
      · have hstep : stepStuck s now maxPT (st, cnt) idp = (st, cnt) := by
          simp only [stepStuck, hget, hstart]
          rw [if_neg helap]
        rw [hstep]
        exact ⟨rfl, Iff.rfl, fun sc => Iff.rfl, fun hm => hm⟩

/-- A sweep step keeps the state well formed and the processing set
duplicate free. -/
lemma stepStuck_inv (s : Settings) (now maxPT : Nat) (st : RedisState) (cnt : Nat)
    (idp : String) (hwf : jobsWellFormed st) (hnd : st.processing.Nodup) :
    jobsWellFormed (stepStuck s now maxPT (st, cnt) idp).1 ∧
    (stepStuck s now maxPT (st, cnt) idp).1.processing.Nodup := by
  rcases hget : kvGet st.jobs idp with _ | ⟨job, ttlr⟩
  · simp only [stepStuck, hget]
    exact ⟨hwf, hnd⟩
  · have hid : job.job_id = some idp := hwf (idp, (job, ttlr)) (kvGet_mem st.jobs idp (job, ttlr) hget)
    rcases hstart : job.started_at with _ | t
    · simp only [stepStuck, hget, hstart]
      exact ⟨hwf, hnd⟩
    · by_cases helap : (maxPT : Int) < (now : Int) - (t : Int)
      · by_cases hretry : job.retry_count + 1 < job.max_retries
        · have hstep : (stepStuck s now maxPT (st, cnt) idp).1 =
              { st with
                  processing := srem st.processing idp
                  waiting := zadd st.waiting idp (-job.priority)
                  jobs := kvSet st.jobs idp
                    ({ job with status := JobStatus.queued, started_at := none
                                retry_count := job.retry_count + 1 }, s.job_timeout) } := by
            simp only [stepStuck, hget, hstart]
            rw [if_pos helap, if_pos hretry]
            simp only [updateJobRun, hid]
            simp
          rw [hstep]
          constructor
          · intro p hp
            rcases mem_kvSet st.jobs idp _ p hp with h1 | h1
            · rw [h1]
              exact hid
            · exact hwf p h1
          · exact nodup_removeFirst st.processing idp hnd
        · have hstep : (stepStuck s now maxPT (st, cnt) idp).1 =
              { st with
                  processing := srem st.processing idp
                  failed := sadd st.failed idp
                  failedSetTTL := some 7200
                  jobs := kvSet st.jobs idp
                    ({ job with status := JobStatus.failed, started_at := none
                                retry_count := job.retry_count + 1
                                error := some (stuckError ((now : Int) - (t : Int))) },
                     3600) } := by
            simp only [stepStuck, hget, hstart]
            rw [if_pos helap, if_neg hretry]
            simp only [updateJobRun, hid]
            simp
          rw [hstep]
          constructor
          · intro p hp
            rcases mem_kvSet st.jobs idp _ p hp with h1 | h1
            · rw [h1]
              exact hid
            · exact hwf p h1
          · exact nodup_removeFirst st.processing idp hnd
      · have hstep : stepStuck s now maxPT (st, cnt) idp = (st, cnt) := by
          simp only [stepStuck, hget, hstart]
          rw [if_neg helap]
        rw [hstep]
        exact ⟨hwf, hnd⟩

/-- Sweeping a list of OTHER members does not disturb a given job id,
and keeps the invariants. -/
lemma foldStuck_frame (s : Settings) (now maxPT : Nat) (L : List String) (jid : String)
    (hL : ¬ (jid ∈ L)) :
    ∀ (st : RedisState) (cnt : Nat), jobsWellFormed st → st.processing.Nodup →
    (kvGet (L.foldl (stepStuck s now maxPT) (st, cnt)).1.jobs jid = kvGet st.jobs jid ∧
     (jid ∈ (L.foldl (stepStuck s now maxPT) (st, cnt)).1.processing ↔ jid ∈ st.processing) ∧
     (∀ sc, ((jid, sc) ∈ (L.foldl (stepStuck s now maxPT) (st, cnt)).1.waiting ↔
        (jid, sc) ∈ st.waiting)) ∧
     (jid ∈ st.failed → jid ∈ (L.foldl (stepStuck s now maxPT) (st, cnt)).1.failed) ∧
     jobsWellFormed (L.foldl (stepStuck s now maxPT) (st, cnt)).1 ∧
     (L.foldl (stepStuck s now maxPT) (st, cnt)).1.processing.Nodup) := by
  induction L with
  | nil =>
    intro st cnt hwf hnd
    exact ⟨rfl, Iff.rfl, fun sc => Iff.rfl, fun h => h, hwf, hnd⟩
  | cons idp L2 ih =>
    intro st cnt hwf hnd
    have hne : ¬ (jid = idp) := fun h => hL (h ▸ List.mem_cons_self idp L2)
    have hL2 : ¬ (jid ∈ L2) := fun h => hL (List.mem_cons_of_mem idp h)
    obtain ⟨hrec, hproc, hwait, hfail⟩ := stepStuck_frame s now maxPT st cnt idp jid hwf hne
    obtain ⟨hwf2, hnd2⟩ := stepStuck_inv s now maxPT st cnt idp hwf hnd
    have hstep := ih hL2 (stepStuck s now maxPT (st, cnt) idp).1
      (stepStuck s now maxPT (st, cnt) idp).2 hwf2 hnd2
    rw [List.foldl_cons]
    refine ⟨?_, ?_, ?_, ?_, ?_, ?_⟩
    · exact hstep.1.trans hrec
    · exact hstep.2.1.trans hproc
    · exact fun sc => (hstep.2.2.1 sc).trans (hwait sc)
    · exact fun hm => hstep.2.2.2.1 (hfail hm)
    · exact hstep.2.2.2.2.1
    · exact hstep.2.2.2.2.2

/-- Effect of the sweep step on a stuck job that still has retries
left: back to the waiting set at its original priority, out of the
processing set, record rewritten as QUEUED with the retry counter
bumped and `started_at` cleared, stored with the normal job-timeout
TTL. -/
lemma stepStuck_self_requeue (s : Settings) (now maxPT : Nat) (acc : RedisState × Nat)
    (jid : String) (job : TranscriptJob) (ttl0 t : Nat)
    (hwf : jobsWellFormed acc.1) (hnd : acc.1.processing.Nodup)
    (hrec : kvGet acc.1.jobs jid = some (job, ttl0))
    (hstart : job.started_at = some t)
    (helap : (maxPT : Int) < (now : Int) - (t : Int))
    (hretry : job.retry_count + 1 < job.max_retries) :
    ¬ (jid ∈ (stepStuck s now maxPT acc jid).1.processing) ∧
    (jid, -job.priority) ∈ (stepStuck s now maxPT acc jid).1.waiting ∧
    kvGet (stepStuck s now maxPT acc jid).1.jobs jid =
      some ({ job with status := JobStatus.queued, started_at := none
                       retry_count := job.retry_count + 1 }, s.job_timeout) ∧
    jobsWellFormed (stepStuck s now maxPT acc jid).1 ∧
    (stepStuck s now maxPT acc jid).1.processing.Nodup := by
  have hid : job.job_id = some jid :=
    hwf (jid, (job, ttl0)) (kvGet_mem acc.1.jobs jid (job, ttl0) hrec)
  have hstep : (stepStuck s now maxPT acc jid).1 =
      { acc.1 with
          processing := srem acc.1.processing jid
          waiting := zadd acc.1.waiting jid (-job.priority)
          jobs := kvSet acc.1.jobs jid
            ({ job with status := JobStatus.queued, started_at := none
                        retry_count := job.retry_count + 1 }, s.job_timeout) } := by
    simp only [stepStuck, hrec, hstart]
    rw [if_pos helap, if_pos hretry]
    simp only [updateJobRun, hid]
    simp
  rw [hstep]
  refine ⟨not_mem_removeFirst_self acc.1.processing jid hnd,
          mem_zadd_self acc.1.waiting jid (-job.priority),
          kvGet_kvSet_same acc.1.jobs jid _,
          ?_, nodup_removeFirst acc.1.processing jid hnd⟩
  intro p hp
  rcases mem_kvSet acc.1.jobs jid _ p hp with h1 | h1
  · rw [h1]
    exact hid
  · exact hwf p h1

/-- Effect of the sweep step on a stuck job whose retries are
exhausted: the record becomes FAILED with a retries-exhausted error,
the job leaves the processing set and joins the failed set. -/
lemma stepStuck_self_failed (s : Settings) (now maxPT : Nat) (acc : RedisState × Nat)
    (jid : String) (job : TranscriptJob) (ttl0 t : Nat)
    (hwf : jobsWellFormed acc.1) (hnd : acc.1.processing.Nodup)
    (hrec : kvGet acc.1.jobs jid = some (job, ttl0))
    (hstart : job.started_at = some t)
    (helap : (maxPT : Int) < (now : Int) - (t : Int))
    (hretry : ¬ (job.retry_count + 1 < job.max_retries)) :
    ¬ (jid ∈ (stepStuck s now maxPT acc jid).1.processing) ∧
    jid ∈ (stepStuck s now maxPT acc jid).1.failed ∧
    kvGet (stepStuck s now maxPT acc jid).1.jobs jid =
      some ({ job with status := JobStatus.failed, started_at := none
                       retry_count := job.retry_count + 1
                       error := some (stuckError ((now : Int) - (t : Int))) }, 3600) ∧
    jobsWellFormed (stepStuck s now maxPT acc jid).1 ∧
    (stepStuck s now maxPT acc jid).1.processing.Nodup := by
  have hid : job.job_id = some jid :=
    hwf (jid, (job, ttl0)) (kvGet_mem acc.1.jobs jid (job, ttl0) hrec)
  have hstep : (stepStuck s now maxPT acc jid).1 =
      { acc.1 with
          processing := srem acc.1.processing jid
          failed := sadd acc.1.failed jid
          failedSetTTL := some 7200
          jobs := kvSet acc.1.jobs jid
            ({ job with status := JobStatus.failed, started_at := none
                        retry_count := job.retry_count + 1
                        error := some (stuckError ((now : Int) - (t : Int))) }, 3600) } := by
    simp only [stepStuck, hrec, hstart]
    rw [if_pos helap, if_neg hretry]
    simp only [updateJobRun, hid]
    simp
  rw [hstep]
  refine ⟨not_mem_removeFirst_self acc.1.processing jid hnd,
          mem_sadd_self acc.1.failed jid,
          kvGet_kvSet_same acc.1.jobs jid _,
          ?_, nodup_removeFirst acc.1.processing jid hnd⟩
  intro p hp
  rcases mem_kvSet acc.1.jobs jid _ p hp with h1 | h1
  · rw [h1]
    exact hid
  · exact hwf p h1

/-- A processing job still inside the time threshold is not touched by
the sweep step. -/
lemma stepStuck_self_fresh (s : Settings) (now maxPT : Nat) (acc : RedisState × Nat)
    (jid : String) (job : TranscriptJob) (ttl0 t : Nat)
    (hrec : kvGet acc.1.jobs jid = some (job, ttl0))
    (hstart : job.started_at = some t)
    (helap : ¬ ((maxPT : Int) < (now : Int) - (t : Int))) :
    stepStuck s now maxPT acc jid = acc := by
  simp only [stepStuck, hrec, hstart]
  rw [if_neg helap]

/-- C4: `requeue_stuck_jobs` on a connected well-formed state treats a
PROCESSING job whose elapsed time since `started_at` exceeds the
threshold as follows: with retries left (bumped retry count still below
`max_retries`, so FAILED is reached exactly when the counter reaches
`max_retries`) it goes back to the waiting set at score minus its
original priority with its record rewritten to QUEUED, retry count
incremented, `started_at` cleared; with retries exhausted it moves to
the failed set with a retries-exhausted error; and a job inside the
threshold keeps its record and its processing-set membership
untouched. -/
theorem C4_requeue_stuck (s : Settings) (st : RedisState) (now maxPT : Nat)
    (jid : String) (job : TranscriptJob) (ttl0 t : Nat)
    (hc : st.connected = true)
    (hwf : jobsWellFormed st)
    (hnd : st.processing.Nodup)
    (hmem : jid ∈ st.processing)
    (hrec : kvGet st.jobs jid = some (job, ttl0))
    (hstart : job.started_at = some t) :
    ((maxPT : Int) < (now : Int) - (t : Int) →
      job.retry_count + 1 < job.max_retries →
      (¬ (jid ∈ (requeue_stuck_jobs s st now maxPT).1.processing) ∧
       (jid, -job.priority) ∈ (requeue_stuck_jobs s st now maxPT).1.waiting ∧
       kvGet (requeue_stuck_jobs s st now maxPT).1.jobs jid =
         some ({ job with status := JobStatus.queued, started_at := none
                          retry_count := job.retry_count + 1 }, s.job_timeout))) ∧
    ((maxPT : Int) < (now : Int) - (t : Int) →
      ¬ (job.retry_count + 1 < job.max_retries) →
      (¬ (jid ∈ (requeue_stuck_jobs s st now maxPT).1.processing) ∧
       jid ∈ (requeue_stuck_jobs s st now maxPT).1.failed ∧
       kvGet (requeue_stuck_jobs s st now maxPT).1.jobs jid =
         some ({ job with status := JobStatus.failed, started_at := none
                          retry_count := job.retry_count + 1
                          error := some (stuckError ((now : Int) - (t : Int))) }, 3600))) ∧
    (¬ ((maxPT : Int) < (now : Int) - (t : Int)) →
      (jid ∈ (requeue_stuck_jobs s st now maxPT).1.processing ∧
       kvGet (requeue_stuck_jobs s st now maxPT).1.jobs jid = some (job, ttl0))) := by
  obtain ⟨L1, L2, hdecomp⟩ := List.append_of_mem hmem
  have hndL : (L1 ++ jid :: L2).Nodup := hdecomp ▸ hnd
  have hjL1 : ¬ (jid ∈ L1) := fun h =>
    (List.disjoint_of_nodup_append hndL) h (List.mem_cons_self jid L2)
  have hjL2 : ¬ (jid ∈ L2) := (List.nodup_cons.mp hndL.of_append_right).1
  have hrq : requeue_stuck_jobs s st now maxPT =
      (L1 ++ jid :: L2).foldl (stepStuck s now maxPT) (st, 0) := by
    simp only [requeue_stuck_jobs, hc, if_true]
    rw [hdecomp]
  rw [hrq, List.foldl_append, List.foldl_cons]
  obtain ⟨f1rec, f1proc, f1wait, f1fail, f1wf, f1nd⟩ :=
    foldStuck_frame s now maxPT L1 jid hjL1 st 0 hwf hnd
  have h1rec : kvGet (L1.foldl (stepStuck s now maxPT) (st, 0)).1.jobs jid =
      some (job, ttl0) := f1rec.trans hrec
  refine ⟨?_, ?_, ?_⟩
  · intro helap hretry
    obtain ⟨srpr, srwa, srre, srwf, srnd⟩ :=
      stepStuck_self_requeue s now maxPT (L1.foldl (stepStuck s now maxPT) (st, 0))
        jid job ttl0 t f1wf f1nd h1rec hstart helap hretry
    obtain ⟨f2rec, f2proc, f2wait, f2fail, f2wf, f2nd⟩ :=
      foldStuck_frame s now maxPT L2 jid hjL2
        (stepStuck s now maxPT (L1.foldl (stepStuck s now maxPT) (st, 0)) jid).1
        (stepStuck s now maxPT (L1.foldl (stepStuck s now maxPT) (st, 0)) jid).2
        srwf srnd
    exact ⟨fun h => srpr (f2proc.mp h), (f2wait (-job.priority)).mpr srwa,
           f2rec.trans srre⟩
  · intro helap hretry
    obtain ⟨sfpr, sffa, sfre, sfwf, sfnd⟩ :=
      stepStuck_self_failed s now maxPT (L1.foldl (stepStuck s now maxPT) (st, 0))
        jid job ttl0 t f1wf f1nd h1rec hstart helap hretry
    obtain ⟨f2rec, f2proc, f2wait, f2fail, f2wf, f2nd⟩ :=
      foldStuck_frame s now maxPT L2 jid hjL2
        (stepStuck s now maxPT (L1.foldl (stepStuck s now maxPT) (st, 0)) jid).1
        (stepStuck s now maxPT (L1.foldl (stepStuck s now maxPT) (st, 0)) jid).2
        sfwf sfnd
    exact ⟨fun h => sfpr (f2proc.mp h), f2fail sffa, f2rec.trans sfre⟩
  · intro helap
    have hfresh := stepStuck_self_fresh s now maxPT
      (L1.foldl (stepStuck s now maxPT) (st, 0)) jid job ttl0 t h1rec hstart helap
    rw [hfresh]
    obtain ⟨f2rec, f2proc, f2wait, f2fail, f2wf, f2nd⟩ :=
      foldStuck_frame s now maxPT L2 jid hjL2
        (L1.foldl (stepStuck s now maxPT) (st, 0)).1
        (L1.foldl (stepStuck s now maxPT) (st, 0)).2
        f1wf f1nd
    exact ⟨f2proc.mpr (f1proc.mpr hmem), f2rec.trans h1rec⟩

/-- A job that has been PROCESSING since t=0. -/
def c4Job : TranscriptJob :=
  { job_id := some "p", video_id := "vid", status := JobStatus.processing
    created_at := some 0, started_at := some 0, completed_at := none
    error := none, retry_count := 0, max_retries := 3, priority := 2 }

/-- State with that job in the processing set. -/
def c4State : RedisState :=
  { connected := true, waiting := [], processing := ["p"], completed := []
    failed := [], jobs := [("p", (c4Job, 600))]
    completedSetTTL := none, failedSetTTL := none }

/-- C4 exercised: at time 4000 with a 3600-second threshold the job
stuck since time 0 with retry count 0 and max retries 3 is requeued. -/
theorem C4_requeue_stuck_witness :
    ¬ ("p" ∈ (requeue_stuck_jobs defaultSettings c4State 4000 3600).1.processing) ∧
    ("p", -c4Job.priority) ∈ (requeue_stuck_jobs defaultSettings c4State 4000 3600).1.waiting ∧
    kvGet (requeue_stuck_jobs defaultSettings c4State 4000 3600).1.jobs "p" =
      some ({ c4Job with status := JobStatus.queued, started_at := none
                         retry_count := c4Job.retry_count + 1 },
            defaultSettings.job_timeout) :=
  (C4_requeue_stuck defaultSettings c4State 4000 3600 "p" c4Job 600 0
    rfl (by decide) (by decide) (by decide) rfl rfl).1 (by decide) (by decide)

/-- A transcript segment as produced by the adapters
(`models.py` `TranscriptSegment` dict form: text, start, duration). -/
structure Segment where
  text : String
  start : Rat
  duration : Rat
deriving DecidableEq, Repr

/-- Words of a string in the sense of Python `str.split()` with no
arguments: maximal runs of non-whitespace characters. -/
def wordsAux : List Char → List Char → List (List Char)
  | [], acc => if acc = [] then [] else [acc.reverse]
  | c :: cs, acc =>
    if c.isWhitespace then
      if acc = [] then wordsAux cs [] else acc.reverse :: wordsAux cs []
    else wordsAux cs (c :: acc)

/-- Number of words of a string, Python `len(s.split())`. -/
def pyWordCount (s : String) : Nat := (wordsAux s.data []).length

/-- Occurrences of sentence-ending punctuation, the Python
`len(re.findall(r"[.!?]", s))`. -/
def countSentenceEndings (s : String) : Nat :=
  (s.data.filter (fun c => c == '.' || c == '!' || c == '?')).length

/-- Word characters in the sense of the regex \w (ASCII fragment). -/
def isWordChar (c : Char) : Bool := c.isAlphanum || c == '_'

/-- The pattern (whose edges are word characters) occurs at position i
of the text with word boundaries on both sides. -/
def matchWordAt (pat s : List Char) (i : Nat) : Bool :=
  ((s.drop i).take pat.length == pat) &&
  (decide (i = 0) || !(isWordChar (s.getD (i - 1) ' '))) &&
  (decide (s.length ≤ i + pat.length) || !(isWordChar (s.getD (i + pat.length) ' ')))

/-- Python `re.search` of a word-bounded literal pattern. -/
def containsWordPattern (pat s : String) : Bool :=
  (List.range (s.data.length + 1)).any (fun i => matchWordAt pat.data s.data i)

/-- Lower-cased copy of a string, Python `str.lower()`. -/
def pyLower (s : String) : String := String.mk (s.data.map Char.toLower)

/-- The regex `\b(um|uh|like|you know)\b` of the natural-speech
heuristic. -/
def speechIndicator (s : String) : Bool :=
  ["um", "uh", "like", "you know"].any (fun w => containsWordPattern w s)

/-- The regex `\b(technology|research|development|analysis)\b` of the
technical-term heuristic. -/
def techIndicator (s : String) : Bool :=
  ["technology", "research", "development", "analysis"].any
    (fun w => containsWordPattern w s)

/-- Base confidence per extraction method, with the 0.5 default for
unknown method names (`method_base_scores.get(method, 0.5)`). -/
def method_base_score (m : String) : Rat :=
  if m = "youtube_transcript_api" then 9/10
  else if m = "xml_direct" then 17/20
  else if m = "yt_dlp" then 4/5
  else if m = "whisper_audio" then 3/4
  else 1/2

/-- Python `round(x, 2)`.  Every value this development feeds it is an
integer multiple of 1/100, so no rounding ties arise and the choice of
tie-breaking rule is immaterial. -/
def round2 (q : Rat) : Rat := ((round (q * 100) : Int) : Rat) / 100

/-- Embedding of `utils.calculate_confidence_score`.  The
`quality_factors` list of conditionally appended bonuses is summed
directly.  Numbers are exact rationals; all quantities in range are
multiples of 1/100, which floats also represent decisions about
faithfully here (every comparison and the min against 1.0 behave
identically). -/
def calculate_confidence_score (segments : List Segment) (method : String) : Rat :=
  if segments = [] then 0
  else
    let base := method_base_score method
    let total_text := String.intercalate " " (segments.map (fun sg => sg.text))
    let word_count := pyWordCount total_text
    let lenFactor : Rat := if 100 < word_count then 1/10 else if 50 < word_count then 1/20 else 0
    let sentFactor : Rat := if 0 < countSentenceEndings total_text then 1/20 else 0
    let speechFactor : Rat := if speechIndicator (pyLower total_text) then 1/50 else 0
    let techFactor : Rat := if techIndicator (pyLower total_text) then 3/100 else 0
    let quality_bonus := lenFactor + sentFactor + speechFactor + techFactor
    round2 (min 1 (base + quality_bonus))

/-- Rounding to two decimals keeps values inside the unit interval. -/
lemma round2_bounds (q : Rat) (h0 : 0 ≤ q) (h1 : q ≤ 1) :
    0 ≤ round2 q ∧ round2 q ≤ 1 := by
  unfold round2
  constructor
  · apply div_nonneg _ (by norm_num)
    have h : (0 : Int) ≤ round (q * 100) := by
      rw [round_eq]
      apply Int.le_floor.mpr
      push_cast
      nlinarith
    exact_mod_cast h
  · rw [div_le_one (by norm_num : (0 : Rat) < 100)]
    have h : round (q * 100) ≤ (100 : Int) := by
      rw [round_eq]
      have hlt : q * 100 + 1 / 2 < ((101 : Int) : Rat) := by
        push_cast
        nlinarith
      have hf := Int.floor_lt.mpr hlt
      omega
    exact_mod_cast h

/-- The method base score sits between the 0.5 default and 0.9. -/
lemma method_base_score_bounds (m : String) :
    1 / 2 ≤ method_base_score m ∧ method_base_score m ≤ 9 / 10 := by
  unfold method_base_score
  split_ifs <;> norm_num

/-- The four conditional quality bonuses sum to something in [0, 1/5]. -/
lemma quality_bonus_bounds (wc se : Nat) (sp te : Bool) :
    0 ≤ ((if 100 < wc then (1 : Rat)/10 else if 50 < wc then 1/20 else 0) +
         (if 0 < se then (1 : Rat)/20 else 0) +
         (if sp = true then (1 : Rat)/50 else 0) +
         (if te = true then (3 : Rat)/100 else 0)) ∧
    ((if 100 < wc then (1 : Rat)/10 else if 50 < wc then 1/20 else 0) +
         (if 0 < se then (1 : Rat)/20 else 0) +
         (if sp = true then (1 : Rat)/50 else 0) +
         (if te = true then (3 : Rat)/100 else 0)) ≤ 1/5 := by
  split_ifs <;> norm_num

/-- C9: `calculate_confidence_score` always lands in the closed unit
interval, and the empty segment list scores exactly 0. -/
theorem C9_confidence_range (segments : List Segment) (method : String) :
    0 ≤ calculate_confidence_score segments method ∧
    calculate_confidence_score segments method ≤ 1 ∧
    calculate_confidence_score ([] : List Segment) method = 0 := by
  refine ⟨?_, ?_, by simp [calculate_confidence_score]⟩
  all_goals
    by_cases hseg : segments = []
  · simp [calculate_confidence_score, hseg]
  · rw [calculate_confidence_score, if_neg hseg]
    obtain ⟨hb1, hb2⟩ := method_base_score_bounds method
    obtain ⟨ho1, ho2⟩ := quality_bonus_bounds
      (pyWordCount (String.intercalate " " (segments.map (fun sg => sg.text))))
      (countSentenceEndings (String.intercalate " " (segments.map (fun sg => sg.text))))
      (speechIndicator (pyLower (String.intercalate " " (segments.map (fun sg => sg.text)))))
      (techIndicator (pyLower (String.intercalate " " (segments.map (fun sg => sg.text)))))
    exact (round2_bounds _ (le_min (by norm_num) (by linarith)) (min_le_left _ _)).1
  · simp [calculate_confidence_score, hseg]
  · rw [calculate_confidence_score, if_neg hseg]
    obtain ⟨hb1, hb2⟩ := method_base_score_bounds method
    obtain ⟨ho1, ho2⟩ := quality_bonus_bounds
      (pyWordCount (String.intercalate " " (segments.map (fun sg => sg.text))))
      (countSentenceEndings (String.intercalate " " (segments.map (fun sg => sg.text))))
      (speechIndicator (pyLower (String.intercalate " " (segments.map (fun sg => sg.text)))))
      (techIndicator (pyLower (String.intercalate " " (segments.map (fun sg => sg.text)))))
    exact (round2_bounds _ (le_min (by norm_num) (by linarith)) (min_le_left _ _)).2

/-- Extraction method enum from `models.py` (`TranscriptMethod`). -/
inductive TranscriptMethod where
  | youtube_transcript_api
  | xml_direct
  | yt_dlp
  | whisper_audio
deriving DecidableEq, Repr

/-- String value of each method (the str-enum values). -/
def methodStr : TranscriptMethod → String
  | TranscriptMethod.youtube_transcript_api => "youtube_transcript_api"
  | TranscriptMethod.xml_direct => "xml_direct"
  | TranscriptMethod.yt_dlp => "yt_dlp"
  | TranscriptMethod.whisper_audio => "whisper_audio"

/-- Position of each method in the fixed preference order. -/
def methodIdx : TranscriptMethod → Nat
  | TranscriptMethod.youtube_transcript_api => 0
  | TranscriptMethod.xml_direct => 1
  | TranscriptMethod.yt_dlp => 2
  | TranscriptMethod.whisper_audio => 3

/-- The fixed order of extraction methods tried by
`extract_transcript`. -/
def methodOrder : List TranscriptMethod :=
  [TranscriptMethod.youtube_transcript_api, TranscriptMethod.xml_direct,
   TranscriptMethod.yt_dlp, TranscriptMethod.whisper_audio]

/-- The four enable flags of `config.py` read by
`_is_method_enabled`. -/
structure ExtractorSettings where
  enable_youtube_transcript_api : Bool
  enable_xml_direct : Bool
  enable_yt_dlp : Bool
  enable_whisper : Bool
deriving DecidableEq, Repr

/-- Embedding of `TranscriptExtractor._is_method_enabled`. -/
def is_method_enabled (ms : ExtractorSettings) : TranscriptMethod → Bool
  | TranscriptMethod.youtube_transcript_api => ms.enable_youtube_transcript_api
  | TranscriptMethod.xml_direct => ms.enable_xml_direct
  | TranscriptMethod.yt_dlp => ms.enable_yt_dlp
  | TranscriptMethod.whisper_audio => ms.enable_whisper

/-- What an adapter hands back on a normal return: the parsed segments
and the language. -/
structure AdapterResult where
  segments : List Segment
  language : Option String
deriving DecidableEq, Repr

/-- Outcome of awaiting one adapter: a returned value (possibly `None`)
or a raised exception with its message. -/
inductive Outcome where
  | ok (r : Option AdapterResult)
  | err (e : String)
deriving DecidableEq, Repr

/-- The success dictionary assembled by `extract_transcript` when an
adapter yields a non-empty segment list. -/
structure ExtractResult where
  success : Bool
  method_used : Option TranscriptMethod
  language : Option String
  segments : List Segment
  total_duration : Option Rat
  word_count : Nat
  confidence_score : Rat
  error : Option String
deriving DecidableEq, Repr

/-- Python `max(s.start + s.duration for s in segments)` over a
non-empty list (the empty case is guarded to 0 at the call site). -/
def maxStartDur : List Segment → Rat
  | [] => 0
  | sg :: rest => rest.foldl (fun a sg2 => max a (sg2.start + sg2.duration))
      (sg.start + sg.duration)

/-- Python `sum(len(segment.text.split()) for segment in segments)`. -/
def segWordCount (segs : List Segment) : Nat :=
  (segs.map (fun sg => pyWordCount sg.text)).sum

/-- The success return value of `extract_transcript`. -/
def successResult (m : TranscriptMethod) (r : AdapterResult) : ExtractResult :=
  { success := true, method_used := some m, language := r.language
    segments := r.segments
    total_duration := some (maxStartDur r.segments)
    word_count := segWordCount r.segments
    confidence_score := calculate_confidence_score r.segments (methodStr m)
    error := none }

/-- The all-methods-failed return value of `extract_transcript`. -/
def failureResult (lastErr : Option String) : ExtractResult :=
  { success := false, method_used := none, language := none, segments := []
    total_duration := none, word_count := 0, confidence_score := 0
    error := some (lastErr.getD "No transcript available") }

/-- The method loop of `TranscriptExtractor.extract_transcript` over
the remaining methods, carrying `last_error` and the list of methods
invoked so far (the invocation counters of the spec).  A disabled
method is skipped without invocation; an exception records the error
and, when fallback is off, breaks out to the failure return; a returned
`None` or an empty segment list falls through to the next method
WITHOUT recording an error and WITHOUT consulting the fallback flag,
because the Python `break` sits inside the `except` handler only. -/
def extractLoop (ms : ExtractorSettings) (attempt : TranscriptMethod → Outcome)
    (useFallback : Bool) :
    List TranscriptMethod → Option String → List TranscriptMethod →
    ExtractResult × List TranscriptMethod
  | [], lastErr, inv => (failureResult lastErr, inv)
  | m :: rest, lastErr, inv =>
    if is_method_enabled ms m then
      match attempt m with
      | Outcome.err e =>
        if useFallback then extractLoop ms attempt useFallback rest (some e) (inv ++ [m])
        else (failureResult (some e), inv ++ [m])
      | Outcome.ok (some res) =>
        if res.segments = [] then extractLoop ms attempt useFallback rest lastErr (inv ++ [m])
        else (successResult m res, inv ++ [m])
      | Outcome.ok none =>
        extractLoop ms attempt useFallback rest lastErr (inv ++ [m])
    else extractLoop ms attempt useFallback rest lastErr inv

/-- Embedding of `TranscriptExtractor.extract_transcript`.  The video
id and language preference are absorbed into `attempt`, which gives the
outcome of awaiting each adapter on them; the function also returns the
invocation trace. -/
def extract_transcript (ms : ExtractorSettings) (attempt : TranscriptMethod → Outcome)
    (useFallback : Bool) : ExtractResult × List TranscriptMethod :=
  extractLoop ms attempt useFallback methodOrder none []

/-- An adapter attempt succeeds when it returns a value with at least
one segment (the `result and result.get("segments")` test). -/
def attemptSucceeds (attempt : TranscriptMethod → Outcome) (m : TranscriptMethod) : Prop :=
  ∃ res, attempt m = Outcome.ok (some res) ∧ ¬ (res.segments = [])

/-- With fallback enabled, the loop runs through the enabled
non-succeeding prefix, invokes exactly those methods, and stops at the
first enabled succeeding method with its success value. -/
lemma extractLoop_first_success (ms : ExtractorSettings)
    (attempt : TranscriptMethod → Outcome) (l1 l2 : List TranscriptMethod)
    (k : TranscriptMethod) (res : AdapterResult)
    (hen : is_method_enabled ms k = true)
    (hres : attempt k = Outcome.ok (some res))
    (hne : ¬ (res.segments = []))
    (hfail : ∀ m ∈ l1, is_method_enabled ms m = true → ¬ attemptSucceeds attempt m) :
    ∀ (lastErr : Option String) (inv : List TranscriptMethod),
      extractLoop ms attempt true (l1 ++ k :: l2) lastErr inv =
        (successResult k res,
         inv ++ (l1.filter (fun m => is_method_enabled ms m)) ++ [k]) := by
  induction l1 with
  | nil =>
    intro lastErr inv
    simp only [List.nil_append, extractLoop, hen, if_true, hres]
    rw [if_neg hne]
    simp
  | cons m l1t ih =>
    intro lastErr inv
    have hfail2 : ∀ m2 ∈ l1t, is_method_enabled ms m2 = true → ¬ attemptSucceeds attempt m2 :=
      fun m2 hm2 => hfail m2 (List.mem_cons_of_mem m hm2)
    by_cases hme : is_method_enabled ms m = true
    · have hmfail : ¬ attemptSucceeds attempt m := hfail m (List.mem_cons_self m l1t) hme
      rcases hatt : attempt m with r | e
      · rcases r with _ | res2
        · simp only [List.cons_append, extractLoop, hme, if_true, hatt, List.append_eq]
          rw [ih hfail2 lastErr (inv ++ [m])]
          simp [List.filter_cons, hme, List.append_assoc]
        · have hres2 : res2.segments = [] := by
            by_contra hc
            exact hmfail ⟨res2, hatt, hc⟩
          simp only [List.cons_append, extractLoop, hme, if_true, hatt, List.append_eq]
          rw [if_pos hres2, ih hfail2 lastErr (inv ++ [m])]
          simp [List.filter_cons, hme, List.append_assoc]
      · simp only [List.cons_append, extractLoop, hme, if_true, hatt, List.append_eq]
        rw [ih hfail2 (some e) (inv ++ [m])]
        simp [List.filter_cons, hme, List.append_assoc]
    · have hmef : is_method_enabled ms m = false := by
        simpa using hme
      simp only [List.cons_append, extractLoop, hmef, List.append_eq]
      rw [if_neg (by simp [hmef]), ih hfail2 lastErr inv]
      have hfe : (m :: l1t).filter (fun m2 => is_method_enabled ms m2) =
          l1t.filter (fun m2 => is_method_enabled ms m2) := by
        simp [List.filter_cons, hmef]
      rw [hfe]

/-- C2: with fallback methods on (the default), if method k is the
first enabled method whose attempt succeeds (returns a value with at
least one segment), `extract_transcript` returns success with
`method_used = k`, and no method after k in the fixed order appears in
the invocation trace. -/
theorem C2_first_success (ms : ExtractorSettings)
    (attempt : TranscriptMethod → Outcome) (k : TranscriptMethod) (res : AdapterResult)
    (hen : is_method_enabled ms k = true)
    (hres : attempt k = Outcome.ok (some res))
    (hne : ¬ (res.segments = []))
    (hfirst : ∀ m, methodIdx m < methodIdx k → is_method_enabled ms m = true →
      ¬ attemptSucceeds attempt m) :
    (extract_transcript ms attempt true).1.success = true ∧
    (extract_transcript ms attempt true).1.method_used = some k ∧
    ∀ m ∈ (extract_transcript ms attempt true).2, methodIdx m ≤ methodIdx k := by
  have main : ∀ (l1 l2 : List TranscriptMethod),
      methodOrder = l1 ++ k :: l2 →
      (∀ m ∈ l1, methodIdx m < methodIdx k) →
      (extract_transcript ms attempt true).1.success = true ∧
      (extract_transcript ms attempt true).1.method_used = some k ∧
      ∀ m ∈ (extract_transcript ms attempt true).2, methodIdx m ≤ methodIdx k := by
    intro l1 l2 hdec hlt
    have hfail : ∀ m ∈ l1, is_method_enabled ms m = true → ¬ attemptSucceeds attempt m :=
      fun m hm => hfirst m (hlt m hm)
    have heq := extractLoop_first_success ms attempt l1 l2 k res hen hres hne hfail none []
    unfold extract_transcript
    rw [hdec, heq]
    refine ⟨rfl, rfl, ?_⟩
    intro m hm
    simp only [List.nil_append] at hm
    rcases List.mem_append.mp hm with h1 | h1
    · have := List.mem_filter.mp h1
      exact Nat.le_of_lt (hlt m this.1)
    · simp at h1
      rw [h1]
  cases k with
  | youtube_transcript_api =>
    exact main [] [TranscriptMethod.xml_direct, TranscriptMethod.yt_dlp,
      TranscriptMethod.whisper_audio] rfl (by intro m hm; simp at hm)
  | xml_direct =>
    refine main [TranscriptMethod.youtube_transcript_api]
      [TranscriptMethod.yt_dlp, TranscriptMethod.whisper_audio] rfl ?_
    intro m hm
    simp at hm
    rw [hm]
    decide
  | yt_dlp =>
    refine main [TranscriptMethod.youtube_transcript_api, TranscriptMethod.xml_direct]
      [TranscriptMethod.whisper_audio] rfl ?_
    intro m hm
    fin_cases hm <;> decide
  | whisper_audio =>
    refine main [TranscriptMethod.youtube_transcript_api, TranscriptMethod.xml_direct,
      TranscriptMethod.yt_dlp] [] rfl ?_
    intro m hm
    fin_cases hm <;> decide

/-- Config with all four extraction methods enabled (the defaults). -/
def allEnabled : ExtractorSettings :=
  { enable_youtube_transcript_api := true, enable_xml_direct := true
    enable_yt_dlp := true, enable_whisper := true }

/-- A successful adapter value with one non-empty segment. -/
def c2Res : AdapterResult :=
  { segments := [{ text := "hello world", start := 0, duration := 2 }]
    language := some "en" }

/-- Adapter outcomes where the first method raises and the second
succeeds. -/
def c2Attempt : TranscriptMethod → Outcome
  | TranscriptMethod.youtube_transcript_api => Outcome.err "rate limited"
  | TranscriptMethod.xml_direct => Outcome.ok (some c2Res)
  | TranscriptMethod.yt_dlp => Outcome.err "not reached"
  | TranscriptMethod.whisper_audio => Outcome.err "not reached"

/-- C2 exercised: youtube_transcript_api raises, xml_direct is the
first enabled succeeding method, so it is the method used and nothing
later is invoked. -/
theorem C2_first_success_witness :
    (extract_transcript allEnabled c2Attempt true).1.success = true ∧
    (extract_transcript allEnabled c2Attempt true).1.method_used =
      some TranscriptMethod.xml_direct ∧
    ∀ m ∈ (extract_transcript allEnabled c2Attempt true).2,
      methodIdx m ≤ methodIdx TranscriptMethod.xml_direct := by
  refine C2_first_success allEnabled c2Attempt TranscriptMethod.xml_direct c2Res
    rfl rfl (by decide) ?_
  intro m hidx hen2 hsuc
  obtain ⟨res, hok, hne2⟩ := hsuc
  cases m with
  | youtube_transcript_api => exact absurd hok (by simp [c2Attempt])
  | xml_direct => exact absurd hidx (by decide)
  | yt_dlp => exact absurd hidx (by decide)
  | whisper_audio => exact absurd hidx (by decide)

/-- An adapter return with zero segments and no exception. -/
def c3EmptyRes : AdapterResult := { segments := [], language := none }

/-- Adapter outcomes where the first method returns zero segments
without raising and the second succeeds. -/
def c3Attempt : TranscriptMethod → Outcome
  | TranscriptMethod.youtube_transcript_api => Outcome.ok (some c3EmptyRes)
  | TranscriptMethod.xml_direct => Outcome.ok (some c2Res)
  | TranscriptMethod.yt_dlp => Outcome.err "not reached"
  | TranscriptMethod.whisper_audio => Outcome.err "not reached"

/-- C3 counterexample: with `use_fallback_methods = False` and the
first enabled method returning zero segments WITHOUT raising, the claim
expects a failure return with no other method invoked.  The code only
breaks inside the exception handler, so the zero-segment return falls
through: the second method is invoked and the call even succeeds. -/
theorem C3_zero_segments_counterexample :
    (extract_transcript allEnabled c3Attempt false).1.success = true ∧
    (extract_transcript allEnabled c3Attempt false).2 =
      [TranscriptMethod.youtube_transcript_api, TranscriptMethod.xml_direct] ∧
    ¬ ((extract_transcript allEnabled c3Attempt false).1.success = false ∧
       (extract_transcript allEnabled c3Attempt false).2 =
         [TranscriptMethod.youtube_transcript_api]) := by
  refine ⟨rfl, rfl, by decide⟩

/-- With fallback off, a raising first enabled method (after a possibly
empty run of disabled methods) makes the loop return failure with that
error, invoking nothing else. -/
lemma extractLoop_first_err_nofallback (ms : ExtractorSettings)
    (attempt : TranscriptMethod → Outcome) (l1 l2 : List TranscriptMethod)
    (k : TranscriptMethod) (e : String)
    (hdis : ∀ m ∈ l1, is_method_enabled ms m = false)
    (hen : is_method_enabled ms k = true)
    (herr : attempt k = Outcome.err e) :
    ∀ (lastErr : Option String) (inv : List TranscriptMethod),
      extractLoop ms attempt false (l1 ++ k :: l2) lastErr inv =
        (failureResult (some e), inv ++ [k]) := by
  induction l1 with
  | nil =>
    intro lastErr inv
    simp [extractLoop, hen, herr]
  | cons m l1t ih =>
    intro lastErr inv
    have hm : is_method_enabled ms m = false := hdis m (List.mem_cons_self m l1t)
    simp only [List.cons_append, extractLoop, hm, List.append_eq]
    rw [if_neg (by simp [hm]),
        ih (fun m2 hm2 => hdis m2 (List.mem_cons_of_mem m hm2)) lastErr inv]

/-- C3 amended: when `use_fallback_methods` is false and the first
enabled method RAISES, `extract_transcript` returns a failure result
carrying that error without invoking any other method; however a first
method that returns zero segments without raising does not stop the
loop — later methods are still attempted even with fallback off (the
`break` sits in the exception handler only). -/
theorem C3_no_fallback_amended (ms : ExtractorSettings)
    (attempt : TranscriptMethod → Outcome) (k : TranscriptMethod) (e : String)
    (hen : is_method_enabled ms k = true)
    (hfirst : ∀ m, methodIdx m < methodIdx k → is_method_enabled ms m = false)
    (herr : attempt k = Outcome.err e) :
    (extract_transcript ms attempt false).1.success = false ∧
    (extract_transcript ms attempt false).1.error = some e ∧
    (extract_transcript ms attempt false).2 = [k] := by
  have main : ∀ (l1 l2 : List TranscriptMethod),
      methodOrder = l1 ++ k :: l2 →
      (∀ m ∈ l1, methodIdx m < methodIdx k) →
      (extract_transcript ms attempt false).1.success = false ∧
      (extract_transcript ms attempt false).1.error = some e ∧
      (extract_transcript ms attempt false).2 = [k] := by
    intro l1 l2 hdec hlt
    have hdis : ∀ m ∈ l1, is_method_enabled ms m = false :=
      fun m hm => hfirst m (hlt m hm)
    have heq := extractLoop_first_err_nofallback ms attempt l1 l2 k e hdis hen herr none []
    unfold extract_transcript
    rw [hdec, heq]
    exact ⟨rfl, rfl, rfl⟩
  cases k with
  | youtube_transcript_api =>
    exact main [] [TranscriptMethod.xml_direct, TranscriptMethod.yt_dlp,
      TranscriptMethod.whisper_audio] rfl (by intro m hm; simp at hm)
  | xml_direct =>
    refine main [TranscriptMethod.youtube_transcript_api]
      [TranscriptMethod.yt_dlp, TranscriptMethod.whisper_audio] rfl ?_
    intro m hm
    fin_cases hm
    decide
  | yt_dlp =>
    refine main [TranscriptMethod.youtube_transcript_api, TranscriptMethod.xml_direct]
      [TranscriptMethod.whisper_audio] rfl ?_
    intro m hm
    fin_cases hm <;> decide
  | whisper_audio =>
    refine main [TranscriptMethod.youtube_transcript_api, TranscriptMethod.xml_direct,
      TranscriptMethod.yt_dlp] [] rfl ?_
    intro m hm
    fin_cases hm <;> decide

/-- Adapter outcomes where the first method raises. -/
def c3ErrAttempt : TranscriptMethod → Outcome
  | TranscriptMethod.youtube_transcript_api => Outcome.err "boom"
  | TranscriptMethod.xml_direct => Outcome.ok (some c2Res)
  | TranscriptMethod.yt_dlp => Outcome.err "not reached"
  | TranscriptMethod.whisper_audio => Outcome.err "not reached"

/-- C3 amended, exercised: fallback off, the first enabled method
raises, and the call fails with that error having invoked only it. -/
theorem C3_no_fallback_amended_witness :
    (extract_transcript allEnabled c3ErrAttempt false).1.success = false ∧
    (extract_transcript allEnabled c3ErrAttempt false).1.error = some "boom" ∧
    (extract_transcript allEnabled c3ErrAttempt false).2 =
      [TranscriptMethod.youtube_transcript_api] := by
  refine C3_no_fallback_amended allEnabled c3ErrAttempt
    TranscriptMethod.youtube_transcript_api "boom" rfl ?_ rfl
  intro m hidx
  exact absurd hidx (by cases m <;> decide)

/-- Proxy endpoint dataclass from `vpn_rotator.py`. -/
structure ProxyEndpoint where
  host : String
  port : Nat
  username : String
  password : String
  protocol : String
  last_used : Nat
  failure_count : Nat
deriving DecidableEq, Repr

/-- The mutable state of `VPNRotator` that `rotate_proxy` touches. -/
structure VPNState where
  enabled : Bool
  proxy_list : List ProxyEndpoint
  current_proxy_index : Nat
  last_rotation : Nat
  request_count : Nat
deriving DecidableEq, Repr

/-- The failure threshold, `self.max_failures = 3`. -/
def maxFailures : Nat := 3

/-- Embedding of `VPNRotator.fetch_proxy_list` in direct-credentials
mode: with a non-empty pool it logs and returns WITHOUT refreshing
anything; with an empty pool it raises (the API code below the raise is
dead). -/
def fetchProxyList (st : VPNState) : Except String VPNState :=
  if st.proxy_list = [] then
    Except.error "API key method not supported with direct credentials"
  else Except.ok st

/-- The advance-and-test loop of `rotate_proxy`: starting from the
current index, step to the next index modulo the pool size and return
the first whose failure count is below the threshold, giving up after
as many attempts as the pool has entries. -/
def rotateLoop (pl : List ProxyEndpoint) (maxF : Nat) (idx : Nat) : Nat → Option Nat
  | 0 => none
  | fuel + 1 =>
    let idx2 := (idx + 1) % pl.length
    match pl.get? idx2 with
    | some p => if p.failure_count < maxF then some idx2 else rotateLoop pl maxF idx2 fuel
    | none => none

/-- Embedding of `VPNRotator.rotate_proxy`.  On a successful advance
the chosen proxy gets `last_used = now` and the rotation bookkeeping
resets; when every proxy is at or over the threshold the code calls
`fetch_proxy_list` (a no-op for a non-empty pool), sets the index to 0
and resets the counters — the pool itself, failure counts included, is
left as it was. -/
def rotate_proxy (st : VPNState) (now : Nat) : VPNState :=
  if st.enabled = false then st
  else if st.proxy_list = [] then st
  else
    match rotateLoop st.proxy_list maxFailures st.current_proxy_index st.proxy_list.length with
    | some j =>
      let pl2 := match st.proxy_list.get? j with
        | some p => st.proxy_list.set j { p with last_used := now }
        | none => st.proxy_list
      { st with current_proxy_index := j, proxy_list := pl2
                last_rotation := now, request_count := 0 }
    | none =>
      match fetchProxyList st with
      | Except.ok st2 =>
        let st3 := { st2 with current_proxy_index := 0 }
        if st3.proxy_list = [] then st3
        else { st3 with last_rotation := now, request_count := 0 }
      | Except.error _ => st

/-- When every proxy is at or over the threshold the loop finds
nothing. -/
lemma rotateLoop_none (pl : List ProxyEndpoint) (maxF : Nat)
    (hne : ¬ (pl = [])) (hall : ∀ p ∈ pl, maxF ≤ p.failure_count) :
    ∀ (fuel idx : Nat), rotateLoop pl maxF idx fuel = none := by
  intro fuel
  induction fuel with
  | zero => intro idx; rfl
  | succ n ih =>
    intro idx
    have hlen : 0 < pl.length := List.length_pos.mpr hne
    have hidx2 : (idx + 1) % pl.length < pl.length := Nat.mod_lt _ hlen
    obtain ⟨p, hp⟩ : ∃ p, pl.get? ((idx + 1) % pl.length) = some p :=
      ⟨_, List.get?_eq_get hidx2⟩
    have hge := hall p (List.get?_mem hp)
    simp only [rotateLoop, hp]
    rw [if_neg (by omega)]
    exact ih _

/-- A successful loop result is the first below-threshold proxy in the
cyclic order starting one past the current index: the found index lies
below threshold and every strictly earlier visited index is at or over
threshold. -/
lemma rotateLoop_some_spec (pl : List ProxyEndpoint) (maxF : Nat) :
    ∀ (fuel idx j : Nat), rotateLoop pl maxF idx fuel = some j →
      ∃ p, pl.get? j = some p ∧ p.failure_count < maxF ∧
        ∃ s, 1 ≤ s ∧ s ≤ fuel ∧ j = (idx + s) % pl.length ∧
          ∀ k, 1 ≤ k → k < s → ∀ q,
            pl.get? ((idx + k) % pl.length) = some q → maxF ≤ q.failure_count := by
  intro fuel
  induction fuel with
  | zero =>
    intro idx j h
    exact absurd h (by simp [rotateLoop])
  | succ n ih =>
    intro idx j h
    rcases hp : pl.get? ((idx + 1) % pl.length) with _ | p
    · rw [rotateLoop, hp] at h
      exact absurd h (by simp)
    · simp only [rotateLoop, hp] at h
      by_cases hf : p.failure_count < maxF
      · rw [if_pos hf] at h
        injection h with hj
        subst hj
        exact ⟨p, hp, hf, 1, le_refl 1, by omega, rfl, by intro k hk1 hk2; omega⟩
      · rw [if_neg hf] at h
        obtain ⟨p2, hp2, hf2, s2, hs1, hs2, hjs, hskip⟩ := ih _ j h
        refine ⟨p2, hp2, hf2, s2 + 1, by omega, by omega, ?_, ?_⟩
        · rw [hjs, Nat.mod_add_mod]
          congr 1
          omega
        · intro k hk1 hk2 q hq
          by_cases hk : k = 1
          · subst hk
            have hqp : q = p := Option.some.inj (hq.symm.trans hp)
            rw [hqp]
            omega
          · have hidxeq : ((idx + 1) % pl.length + (k - 1)) % pl.length =
                (idx + k) % pl.length := by
              rw [Nat.mod_add_mod]
              congr 1
              omega
            exact hskip (k - 1) (by omega) (by omega) q (by rw [hidxeq]; exact hq)

/-- A fruitless loop means every index visited within the fuel is at or
over the threshold. -/
lemma rotateLoop_none_spec (pl : List ProxyEndpoint) (maxF : Nat)
    (hne : ¬ (pl = [])) :
    ∀ (fuel idx : Nat), rotateLoop pl maxF idx fuel = none →
      ∀ k, 1 ≤ k → k ≤ fuel → ∀ q,
        pl.get? ((idx + k) % pl.length) = some q → maxF ≤ q.failure_count := by
  intro fuel
  induction fuel with
  | zero =>
    intro idx h k hk1 hk2
    omega
  | succ n ih =>
    intro idx h k hk1 hk2 q hq
    have hlen : 0 < pl.length := List.length_pos.mpr hne
    obtain ⟨p, hp⟩ : ∃ p, pl.get? ((idx + 1) % pl.length) = some p :=
      ⟨_, List.get?_eq_get (Nat.mod_lt _ hlen)⟩
    simp only [rotateLoop, hp] at h
    by_cases hf : p.failure_count < maxF
    · rw [if_pos hf] at h
      exact absurd h (by simp)
    · rw [if_neg hf] at h
      by_cases hk : k = 1
      · subst hk
        have hqp : q = p := Option.some.inj (hq.symm.trans hp)
        rw [hqp]
        omega
      · have hidxeq : ((idx + 1) % pl.length + (k - 1)) % pl.length =
            (idx + k) % pl.length := by
          rw [Nat.mod_add_mod]
          congr 1
          omega
        exact ih _ h (k - 1) (by omega) (by omega) q (by rw [hidxeq]; exact hq)

/-- Visiting `pl.length` consecutive indices starting anywhere covers
every index of the pool. -/
lemma cyclic_cover (len idx i : Nat) (hlen : 0 < len) (hi : i < len) :
    ∃ k, 1 ≤ k ∧ k ≤ len ∧ (idx + k) % len = i := by
  have ha : idx % len < len := Nat.mod_lt _ hlen
  by_cases hai : idx % len < i
  · refine ⟨i - idx % len, by omega, by omega, ?_⟩
    rw [← Nat.mod_add_mod]
    have : idx % len + (i - idx % len) = i := by omega
    rw [this, Nat.mod_eq_of_lt hi]
  · refine ⟨len - (idx % len - i), by omega, by omega, ?_⟩
    rw [← Nat.mod_add_mod]
    have : idx % len + (len - (idx % len - i)) = len + i := by omega
    rw [this, Nat.add_mod_left, Nat.mod_eq_of_lt hi]

/-- If some proxy sits below the threshold, the loop with a full tank
of fuel finds one. -/
lemma rotateLoop_exists (pl : List ProxyEndpoint) (maxF idx : Nat)
    (hne : ¬ (pl = []))
    (hex : ∃ p ∈ pl, p.failure_count < maxF) :
    ∃ j, rotateLoop pl maxF idx pl.length = some j := by
  rcases hr : rotateLoop pl maxF idx pl.length with _ | j
  · exfalso
    obtain ⟨p, hpmem, hpf⟩ := hex
    obtain ⟨i, hi⟩ := List.mem_iff_get?.mp hpmem
    have hilen : i < pl.length := by
      rw [List.get?_eq_some] at hi
      exact hi.1
    have hlen : 0 < pl.length := List.length_pos.mpr hne
    obtain ⟨k, hk1, hk2, hki⟩ := cyclic_cover pl.length idx i hlen hilen
    have := rotateLoop_none_spec pl maxF hne pl.length idx hr k hk1 hk2 p
      (by rw [hki]; exact hi)
    omega
  · exact ⟨j, rfl⟩

/-- A one-proxy pool whose only identity is at the failure threshold. -/
def c8StBad : VPNState :=
  { enabled := true
    proxy_list := [{ host := "rotating-residential.webshare.io", port := 9000
                     username := "u", password := "p", protocol := "http"
                     last_used := 0, failure_count := 3 }]
    current_proxy_index := 0, last_rotation := 0, request_count := 7 }

/-- C8 counterexample: with every identity at or over the threshold the
claim says the pool is refreshed from its source and the failure counts
reset.  In direct-credentials mode `fetch_proxy_list` returns
immediately whenever the pool is non-empty, so `rotate_proxy` only
resets the index and the counters: the pool and its failure counts are
exactly as before (still 3, not reset). -/
theorem C8_no_refresh_counterexample :
    (rotate_proxy c8StBad 100).proxy_list = c8StBad.proxy_list ∧
    (rotate_proxy c8StBad 100).proxy_list.map (fun p => p.failure_count) = [3] ∧
    (rotate_proxy c8StBad 100).current_proxy_index = 0 ∧
    (rotate_proxy c8StBad 100).request_count = 0 ∧
    (rotate_proxy c8StBad 100).last_rotation = 100 := by
  refine ⟨by decide, by decide, by decide, by decide, by decide⟩

/-- C8 amended: for an enabled rotator with a non-empty pool,
`rotate_proxy` advances to the next identity in cyclic order whose
failure count is below the threshold, skipping the at-or-over-threshold
ones, stamps its `last_used`, and resets `request_count` to 0 and
`last_rotation` to now; when EVERY identity is at or over the
threshold, the attempted refresh is a no-op for the non-empty
direct-credentials pool, so the rotator merely resets the index to 0
and the counters, leaving the identities and their failure counts
unchanged. -/
theorem C8_rotate_amended (st : VPNState) (now : Nat)
    (hen : st.enabled = true) (hne : ¬ (st.proxy_list = [])) :
    ((∀ p ∈ st.proxy_list, maxFailures ≤ p.failure_count) →
      rotate_proxy st now =
        { st with current_proxy_index := 0, last_rotation := now, request_count := 0 }) ∧
    ((∃ p ∈ st.proxy_list, p.failure_count < maxFailures) →
      ∃ j p, rotateLoop st.proxy_list maxFailures st.current_proxy_index
          st.proxy_list.length = some j ∧
        st.proxy_list.get? j = some p ∧ p.failure_count < maxFailures ∧
        rotate_proxy st now =
          { st with current_proxy_index := j
                    proxy_list := st.proxy_list.set j { p with last_used := now }
                    last_rotation := now, request_count := 0 } ∧
        (∃ s, 1 ≤ s ∧ s ≤ st.proxy_list.length ∧
          j = (st.current_proxy_index + s) % st.proxy_list.length ∧
          ∀ k, 1 ≤ k → k < s → ∀ q,
            st.proxy_list.get? ((st.current_proxy_index + k) % st.proxy_list.length) =
              some q → maxFailures ≤ q.failure_count)) := by
  have henf : ¬ (st.enabled = false) := by
    rw [hen]
    simp
  constructor
  · intro hall
    have hnone := rotateLoop_none st.proxy_list maxFailures hne hall
      st.proxy_list.length st.current_proxy_index
    rw [rotate_proxy, if_neg henf, if_neg hne, hnone]
    simp only [fetchProxyList]
    rw [if_neg hne]
    simp only []
    rw [if_neg hne]
  · intro hex
    obtain ⟨j, hj⟩ := rotateLoop_exists st.proxy_list maxFailures
      st.current_proxy_index hne hex
    obtain ⟨p, hp, hpf, s, hs1, hs2, hjs, hskip⟩ :=
      rotateLoop_some_spec st.proxy_list maxFailures st.proxy_list.length
        st.current_proxy_index j hj
    refine ⟨j, p, hj, hp, hpf, ?_, s, hs1, hs2, hjs, hskip⟩
    rw [rotate_proxy, if_neg henf, if_neg hne, hj]
    simp only [hp]

/-- A two-proxy pool: the first at threshold, the second healthy. -/
def c8StGood : VPNState :=
  { enabled := true
    proxy_list :=
      [{ host := "h1", port := 9000, username := "u", password := "p"
         protocol := "http", last_used := 0, failure_count := 3 },
       { host := "h2", port := 9001, username := "u", password := "p"
         protocol := "http", last_used := 0, failure_count := 0 }]
    current_proxy_index := 0, last_rotation := 5, request_count := 9 }

/-- C8 amended, exercised on both branches: the saturated one-proxy
pool only gets its counters reset, and the two-proxy pool advances to
the healthy second identity. -/
theorem C8_rotate_amended_witness :
    rotate_proxy c8StBad 100 =
      { c8StBad with current_proxy_index := 0, last_rotation := 100
                     request_count := 0 } ∧
    (∃ j p, rotateLoop c8StGood.proxy_list maxFailures c8StGood.current_proxy_index
        c8StGood.proxy_list.length = some j ∧
      c8StGood.proxy_list.get? j = some p ∧ p.failure_count < maxFailures ∧
      rotate_proxy c8StGood 100 =
        { c8StGood with current_proxy_index := j
                        proxy_list := c8StGood.proxy_list.set j { p with last_used := 100 }
                        last_rotation := 100, request_count := 0 } ∧
      (∃ s, 1 ≤ s ∧ s ≤ c8StGood.proxy_list.length ∧
        j = (c8StGood.current_proxy_index + s) % c8StGood.proxy_list.length ∧
        ∀ k, 1 ≤ k → k < s → ∀ q,
          c8StGood.proxy_list.get?
              ((c8StGood.current_proxy_index + k) % c8StGood.proxy_list.length) =
            some q → maxFailures ≤ q.failure_count)) :=
  ⟨(C8_rotate_amended c8StBad 100 rfl (by decide)).1 (by decide),
   (C8_rotate_amended c8StGood 100 rfl (by decide)).2 (by decide)⟩

end TranscriptProcessor
